import Mathlib

/-!
Verification of the RubinTargetSelector coverage engine.

The planar winding-number / coverage / grid code (`src/wn.py`,
`src/skycoverage.py`) is embedded over `ℚ` (exact field arithmetic standing
for the float arithmetic of the source); the spherical geometry
(`src/geom.py`) is embedded over `ℝ` further below.

Fallible operations (Python code that can raise) return `Option` or
`Except String`.
-/

namespace SkyCov

/-- A planar point `(x, y)`, i.e. a `(lon, lat)` pair in degrees. -/
abbrev Point := ℚ × ℚ

/-- `is_left(p0, p1, p2)` from `src/wn.py`: twice the signed area of the
triangle `(p0, p1, p2)`. -/
def is_left (p0 p1 p2 : Point) : ℚ :=
  (p1.1 - p0.1) * (p2.2 - p0.2) - (p2.1 - p0.1) * (p1.2 - p0.2)

/-- One iteration of the loop body of `wn_pnpoly` for the edge `(vi, vi1)`. -/
def wnStep (p : Point) (wn : ℤ) (e : Point × Point) : ℤ :=
  if e.1.2 ≤ p.2 then
    if p.2 < e.2.2 then
      if 0 < is_left e.1 e.2 p then wn + 1 else wn
    else wn
  else
    if e.2.2 ≤ p.2 then
      if is_left e.1 e.2 p < 0 then wn - 1 else wn
    else wn

/-- `wn_pnpoly(p, v)` from `src/wn.py`: winding number of point `p` in the
closed polygon `v` (the loop runs over the `len(v) - 1` consecutive edges
`(v[i], v[i+1])`, realized here by `v.zip v.tail`). -/
def wn_pnpoly (p : Point) (v : List Point) : ℤ :=
  (v.zip v.tail).foldl (wnStep p) 0

/-- `wn_multipnpoly(ps, v)` from `src/wn.py`: the winding number of each
point of `ps` in the polygon `v`. -/
def wn_multipnpoly (ps : List Point) (v : List Point) : List ℤ :=
  ps.map (fun p => wn_pnpoly p v)

/-- `coverage(pixels, polygon)` from `src/skycoverage.py`:
`np.int32(wn_multipnpoly(pixels, polygon) != 0)`, the 0/1 membership
indicator per pixel. -/
def coverage (pixels : List Point) (polygon : List Point) : List ℤ :=
  (wn_multipnpoly pixels polygon).map (fun w => if w ≠ 0 then 1 else 0)

/-- `coverage_all(pixels, polygons)` from `src/skycoverage.py`: starts from
`coverage(pixels, polygons[0])` and adds `coverage(pixels, polygon)`
element-wise for the remaining polygons.  On an empty polygon list the
subscript `polygons[0]` raises `IndexError`, modelled by `none`. -/
def coverage_all (pixels : List Point) (polygons : List (List Point)) :
    Option (List ℤ) :=
  match polygons with
  | [] => none
  | p :: rest =>
      some (rest.foldl (fun image poly => List.zipWith (· + ·) image (coverage pixels poly))
        (coverage pixels p))

/-- `np.linspace(a, b, n)`: `n` evenly spaced samples from `a` to `b`
inclusive (`[a]` for `n = 1`, `[]` for `n = 0`). -/
def linspace (a b : ℚ) (n : ℕ) : List ℚ :=
  if n ≤ 1 then (List.range n).map (fun _ => a)
  else (List.range n).map (fun k : ℕ => a + (k : ℚ) * ((b - a) / ((n : ℚ) - 1)))

/-- `make_pixels(extent, size)` from `src/skycoverage.py`: the grid of pixel
centers.  `np.meshgrid(x, y)` transposed and reshaped to `(-1, 2)` enumerates
the cross product with the longitude index outermost: flat index
`i * ny + j` holds `(x[i], y[j])`. -/
def make_pixels (extent : ℚ × ℚ × ℚ × ℚ) (size : ℕ × ℕ) : List Point :=
  let xmin := extent.1
  let ymin := extent.2.1
  let xmax := extent.2.2.1
  let ymax := extent.2.2.2
  let x := linspace xmin xmax size.1
  let y := linspace ymin ymax size.2
  x.flatMap (fun xi => y.map (fun yj => (xi, yj)))

/-- `make_image(pixels, coverage, extent, size)` from `src/skycoverage.py`.
Computes cell widths `dx = (xmax-xmin)/(nx-1)`, `dy = (ymax-ymin)/(ny-1)`
(raising `ZeroDivisionError` when `nx = 1` or `ny = 1`, since the extent
components are Python floats and the denominator the `int` zero), then the
`nx+1` / `ny+1` pixel-edge coordinates, then
`image = np.reshape(coverage, (nx, ny)).T` (raising `ValueError` when the
coverage length is not `nx * ny`), so `image[j][i] = coverage[i * ny + j]`.
The `pixels` argument is unused by the source function. -/
def make_image (pixels : List Point) (cov : List ℤ) (extent : ℚ × ℚ × ℚ × ℚ)
    (size : ℕ × ℕ) : Except String (List ℚ × List ℚ × List (List ℤ)) :=
  let xmin := extent.1
  let ymin := extent.2.1
  let xmax := extent.2.2.1
  let ymax := extent.2.2.2
  let nx := size.1
  let ny := size.2
  if (nx : ℤ) - 1 = 0 ∨ (ny : ℤ) - 1 = 0 then
    Except.error "ZeroDivisionError"
  else
    let dx := (xmax - xmin) / ((nx : ℚ) - 1)
    let dy := (ymax - ymin) / ((ny : ℚ) - 1)
    let x := linspace (xmin - dx / 2) (xmax + dx / 2) (nx + 1)
    let y := linspace (ymin - dy / 2) (ymax + dy / 2) (ny + 1)
    if cov.length = nx * ny then
      Except.ok (x, y,
        (List.range ny).map (fun j => (List.range nx).map (fun i => cov.getD (i * ny + j) 0)))
    else
      Except.error "ValueError"

end SkyCov

namespace SkyCov

/-- The closed test triangle from `tests()` in `src/wn.py`. -/
def testTriangle : List Point := [(-1, -1), (1, -1), (0, 1), (-1, -1)]

/-- Every entry of a `coverage` vector is 0 or 1. -/
lemma coverage_mem_bound {pixels polygon : List Point} {c : ℤ}
    (h : c ∈ coverage pixels polygon) : 0 ≤ c ∧ c ≤ 1 := by
  simp only [coverage, List.mem_map] at h
  obtain ⟨w, _, hw⟩ := h
  subst hw
  split <;> norm_num

/-- Elements of an element-wise sum come from corresponding summands. -/
lemma mem_zipWith_add {xs ys : List ℤ} {c : ℤ}
    (h : c ∈ List.zipWith (· + ·) xs ys) : ∃ a ∈ xs, ∃ b ∈ ys, c = a + b := by
  induction xs generalizing ys with
  | nil => simp at h
  | cons x xs ih =>
    cases ys with
    | nil => simp at h
    | cons y ys =>
      simp only [List.zipWith_cons_cons, List.mem_cons] at h
      rcases h with h | h
      · exact ⟨x, by simp, y, by simp, h⟩
      · obtain ⟨a, ha, b, hb, hab⟩ := ih h
        exact ⟨a, by simp [ha], b, by simp [hb], hab⟩

/-- Bound on the entries of the accumulation loop of `coverage_all`: starting
from an image bounded by `k`, folding `m` more polygons bounds every entry by
`k + m`. -/
lemma coverage_all_foldl_bound (pixels : List Point) :
    ∀ (polys : List (List Point)) (img : List ℤ) (k : ℤ),
      (∀ c ∈ img, 0 ≤ c ∧ c ≤ k) →
      ∀ c ∈ polys.foldl
        (fun image poly => List.zipWith (· + ·) image (coverage pixels poly)) img,
        0 ≤ c ∧ c ≤ k + polys.length := by
  intro polys
  induction polys with
  | nil => intro img k h c hc; simpa using h c hc
  | cons p ps ih =>
    intro img k h c hc
    rw [List.foldl_cons] at hc
    have step : ∀ d ∈ List.zipWith (· + ·) img (coverage pixels p),
        0 ≤ d ∧ d ≤ k + 1 := by
      intro d hd
      obtain ⟨a, ha, b, hb, hab⟩ := mem_zipWith_add hd
      have h1 := h a ha
      have h2 := coverage_mem_bound hb
      subst hab
      constructor
      · linarith [h1.1, h2.1]
      · linarith [h1.2, h2.2]
    have := ih (List.zipWith (· + ·) img (coverage pixels p)) (k + 1) step c hc
    refine ⟨this.1, ?_⟩
    have : c ≤ k + 1 + ps.length := this.2
    have hlen : ((p :: ps).length : ℤ) = (ps.length : ℤ) + 1 := by
      simp [List.length_cons]
    linarith [this]

/-- The accumulation loop preserves the image length when each polygon
contributes a coverage vector of the same length. -/
lemma coverage_all_foldl_length (pixels : List Point) :
    ∀ (polys : List (List Point)) (img : List ℤ),
      img.length = pixels.length →
      (polys.foldl
        (fun image poly => List.zipWith (· + ·) image (coverage pixels poly)) img).length
        = pixels.length := by
  intro polys
  induction polys with
  | nil => intro img h; simpa using h
  | cons p ps ih =>
    intro img h
    rw [List.foldl_cons]
    apply ih
    simp [List.length_zipWith, h, coverage, wn_multipnpoly]

/-- A `coverage` vector has one entry per pixel. -/
lemma coverage_length (pixels polygon : List Point) :
    (coverage pixels polygon).length = pixels.length := by
  simp [coverage, wn_multipnpoly]

end SkyCov

namespace SkyCov

/-- C1: evaluation at the failing input.  `coverage_all(pixels, [])` does
not return an all-zero array: the subscript `polygons[0]` fails
(`IndexError`), modelled by `none`, for every pixel list. -/
theorem c1_coverage_all_empty_fails : ∀ pixels : List Point, coverage_all pixels [] = none :=
  fun _ => rfl

/-- C4 counterexample: for the degenerate polygon `[(0,0),(0,0)]` (a single
distinct vertex) the coverage computation does not fail fast: it silently
returns the zero coverage array `[0]` for the pixel `(5, 5)`. -/
theorem c4_counterexample :
    coverage_all [((5 : ℚ), 5)] [[(0, 0), (0, 0)]] = some [0] := by
  norm_num [coverage_all, coverage, wn_multipnpoly, wn_pnpoly, wnStep, is_left]

/-- C4 (amended): the coverage computation performs no geometry validation at
all: for every pixel list and every non-empty polygon list, malformed or not,
`coverage_all` succeeds and returns one integer per pixel; in particular the
degenerate two-vertex polygon `[(0,0),(0,0)]` silently yields zero coverage. -/
theorem c4_no_geometry_validation :
    (∀ (pixels : List Point) (p : List Point) (ps : List (List Point)),
      ∃ img, coverage_all pixels (p :: ps) = some img ∧ img.length = pixels.length) ∧
    coverage_all [((5 : ℚ), 5)] [[(0, 0), (0, 1)], [(0, 0), (0, 0)]] = some [0] := by
  constructor
  · intro pixels p ps
    refine ⟨_, rfl, ?_⟩
    exact coverage_all_foldl_length pixels ps (coverage pixels p) (coverage_length pixels p)
  · norm_num [coverage_all, coverage, wn_multipnpoly, wn_pnpoly, wnStep, is_left]

/-- C5: entry `i` of `coverage(pixels, polygon)` is 1 when the winding
number of pixel `i` in the polygon is nonzero and 0 when it is zero. -/
theorem c5_coverage_is_membership_indicator (ps v : List Point) (i : ℕ) (p : Point)
    (h : ps[i]? = some p) :
    (coverage ps v)[i]? = some (if wn_pnpoly p v ≠ 0 then 1 else 0) := by
  simp [coverage, wn_multipnpoly, List.getElem?_map, h]

/-- C5 witness: the indicator property evaluated on the test triangle with
pixels `[(0,0), (1,1)]` at index 0. -/
theorem c5_coverage_is_membership_indicator_witness :
    ([((0 : ℚ), 0), (1, 1)] : List Point)[0]? = some (0, 0) ∧
    (coverage [(0, 0), (1, 1)] testTriangle)[0]? =
      some (if wn_pnpoly (0, 0) testTriangle ≠ 0 then 1 else 0) :=
  ⟨by simp, c5_coverage_is_membership_indicator [(0, 0), (1, 1)] testTriangle 0 (0, 0) (by simp)⟩

/-- C8: every cell of a successfully computed `coverage_all` array is a
non-negative integer bounded by the number of polygons. -/
theorem c8_coverage_all_cell_bounds (pixels : List Point) (polys : List (List Point))
    (img : List ℤ) (i : ℕ) (c : ℤ)
    (h1 : coverage_all pixels polys = some img) (h2 : img[i]? = some c) :
    0 ≤ c ∧ c ≤ polys.length := by
  match polys with
  | [] => simp [coverage_all] at h1
  | p :: rest =>
    simp only [coverage_all, Option.some.injEq] at h1
    obtain ⟨hlt, heq⟩ := List.getElem?_eq_some.mp h2
    have hmem : c ∈ img := by rw [← heq]; exact List.getElem_mem hlt
    rw [← h1] at hmem
    have hstart : ∀ d ∈ coverage pixels p, 0 ≤ d ∧ d ≤ (1 : ℤ) :=
      fun d hd => coverage_mem_bound hd
    have hb := coverage_all_foldl_bound pixels rest (coverage pixels p) 1 hstart _ hmem
    refine ⟨hb.1, ?_⟩
    have : c ≤ 1 + rest.length := hb.2
    have hlen : (((p :: rest).length : ℕ) : ℤ) = 1 + (rest.length : ℤ) := by
      simp [List.length_cons]; ring
    omega

/-- C8 witness: the bounds evaluated for one pixel inside the test triangle
and the two-copy polygon list. -/
theorem c8_coverage_all_cell_bounds_witness :
    coverage_all [((0 : ℚ), 0)] [testTriangle, testTriangle] = some [2] ∧
    (([2] : List ℤ))[0]? = some 2 ∧
    (0 ≤ (2 : ℤ) ∧ (2 : ℤ) ≤ ([testTriangle, testTriangle] : List (List Point)).length) := by
  have h1 : coverage_all [((0 : ℚ), 0)] [testTriangle, testTriangle] = some [2] := by
    norm_num [coverage_all, coverage, wn_multipnpoly, wn_pnpoly, wnStep, is_left, testTriangle]
  have h2 : (([2] : List ℤ))[0]? = some 2 := by simp
  exact ⟨h1, h2,
    c8_coverage_all_cell_bounds [((0 : ℚ), 0)] [testTriangle, testTriangle] [2] 0 2 h1 h2⟩

/-- C9: on the closed triangle `[(-1,-1),(1,-1),(0,1),(-1,-1)]` the winding
number of the inside point `(0,0)` is nonzero and the winding number of the
outside point `(1,1)` is zero. -/
theorem c9_triangle_winding_numbers :
    wn_pnpoly (0, 0) testTriangle ≠ 0 ∧ wn_pnpoly (1, 1) testTriangle = 0 := by
  constructor <;> norm_num [wn_pnpoly, wnStep, is_left, testTriangle]

end SkyCov

namespace SkyCov

/-- `linspace a b n` always has `n` samples. -/
lemma linspace_length (a b : ℚ) (n : ℕ) : (linspace a b n).length = n := by
  unfold linspace
  split
  · rw [List.length_map, List.length_range]
  · rw [List.length_map, List.length_range]

/-- Indexing the cross-product enumeration of `make_pixels`: flat index
`i * |ys| + j` of `xs.flatMap (fun x => ys.map (g x))` holds `g xs[i] ys[j]`. -/
lemma getElem?_flatMap_map {α β γ : Type} (xs : List α) (ys : List β) (g : α → β → γ)
    (d : β) (i j : ℕ) (hj : j < ys.length) :
    (xs.flatMap (fun x => ys.map (g x)))[i * ys.length + j]? =
      xs[i]?.map (fun x => g x (ys.getD j d)) := by
  induction xs generalizing i with
  | nil => simp
  | cons x xs ih =>
    rw [List.flatMap_cons, List.getElem?_append]
    cases i with
    | zero =>
      have hlt : 0 * ys.length + j < (ys.map (g x)).length := by simpa using hj
      rw [if_pos hlt]
      simp [List.getElem?_map, List.getElem?_eq_getElem hj, List.getD_eq_getElem ys d hj]
    | succ i =>
      have hmul : (i + 1) * ys.length = i * ys.length + ys.length := by ring
      have hge : ¬ (i + 1) * ys.length + j < (ys.map (g x)).length := by
        simp only [List.length_map]
        omega
      rw [if_neg hge]
      have harith : (i + 1) * ys.length + j - (ys.map (g x)).length = i * ys.length + j := by
        simp only [List.length_map]
        omega
      rw [harith, ih i]
      simp

/-- Pixel `i * ny + j` of `make_pixels` is `(x[i], y[j])`, the cross product
of the `i`-th longitude sample and the `j`-th latitude sample. -/
lemma make_pixels_getElem? (ext : ℚ × ℚ × ℚ × ℚ) (nx ny i j : ℕ)
    (hi : i < nx) (hj : j < ny) :
    (make_pixels ext (nx, ny))[i * ny + j]? =
      some ((linspace ext.1 ext.2.2.1 nx).getD i 0,
            (linspace ext.2.1 ext.2.2.2 ny).getD j 0) := by
  unfold make_pixels
  have hyl : (linspace ext.2.1 ext.2.2.2 ny).length = ny := linspace_length _ _ _
  have hidx : i * ny + j = i * (linspace ext.2.1 ext.2.2.2 ny).length + j := by rw [hyl]
  rw [hidx, getElem?_flatMap_map _ _ _ 0 i j (by rw [hyl]; exact hj)]
  have hxl : (linspace ext.1 ext.2.2.1 nx).length = nx := linspace_length _ _ _
  have hi2 : i < (linspace ext.1 ext.2.2.1 nx).length := by rw [hxl]; exact hi
  rw [List.getElem?_eq_getElem hi2]
  simp [List.getD, List.getElem?_eq_getElem hi2]

/-- The successful branch of `make_image`, spelled out. -/
lemma make_image_ok (px : List Point) (cov : List ℤ) (ext : ℚ × ℚ × ℚ × ℚ)
    (nx ny : ℕ) (hnx : 2 ≤ nx) (hny : 2 ≤ ny) (hlen : cov.length = nx * ny) :
    make_image px cov ext (nx, ny) =
      Except.ok
        (linspace (ext.1 - (ext.2.2.1 - ext.1) / ((nx : ℚ) - 1) / 2)
                  (ext.2.2.1 + (ext.2.2.1 - ext.1) / ((nx : ℚ) - 1) / 2) (nx + 1),
         linspace (ext.2.1 - (ext.2.2.2 - ext.2.1) / ((ny : ℚ) - 1) / 2)
                  (ext.2.2.2 + (ext.2.2.2 - ext.2.1) / ((ny : ℚ) - 1) / 2) (ny + 1),
         (List.range ny).map (fun j => (List.range nx).map (fun i => cov.getD (i * ny + j) 0))) := by
  unfold make_image
  have h1 : ¬ ((nx : ℤ) - 1 = 0 ∨ (ny : ℤ) - 1 = 0) := by omega
  rw [if_neg h1, if_pos hlen]

end SkyCov

namespace SkyCov

/-- C6: for a grid with `nx, ny ≥ 2` and a coverage vector of length
`nx * ny`, `make_image` succeeds and its image satisfies
`image[j][i] = coverage[i * ny + j]`, and `i * ny + j` is exactly the
position at which `make_pixels` enumerates the point `(x[i], y[j])`. -/
theorem c6_grid_roundtrip (ext : ℚ × ℚ × ℚ × ℚ) (nx ny : ℕ) (cov : List ℤ) (i j : ℕ)
    (hnx : 2 ≤ nx) (hny : 2 ≤ ny) (hlen : cov.length = nx * ny)
    (hi : i < nx) (hj : j < ny) :
    ∃ xe ye img,
      make_image (make_pixels ext (nx, ny)) cov ext (nx, ny) = Except.ok (xe, ye, img) ∧
      (img[j]?.bind fun row => row[i]?) = some (cov.getD (i * ny + j) 0) ∧
      (make_pixels ext (nx, ny))[i * ny + j]? =
        some ((linspace ext.1 ext.2.2.1 nx).getD i 0,
              (linspace ext.2.1 ext.2.2.2 ny).getD j 0) := by
  refine ⟨_, _, _, make_image_ok _ cov ext nx ny hnx hny hlen, ?_,
    make_pixels_getElem? ext nx ny i j hi hj⟩
  simp [List.getElem?_map, List.getElem?_range hj, List.getElem?_range hi]

/-- C6 witness: the grid round-trip on the extent `(0,0,1,1)`, size `(2,2)`,
coverage `[0,1,2,3]`, at grid position `i = 1`, `j = 0`. -/
theorem c6_grid_roundtrip_witness :
    ([0, 1, 2, 3] : List ℤ).length = 2 * 2 ∧
    (∃ xe ye img,
      make_image (make_pixels (0, 0, 1, 1) (2, 2)) [0, 1, 2, 3] (0, 0, 1, 1) (2, 2) =
        Except.ok (xe, ye, img) ∧
      (img[0]?.bind fun row => row[1]?) = some (([0, 1, 2, 3] : List ℤ).getD (1 * 2 + 0) 0) ∧
      (make_pixels (0, 0, 1, 1) (2, 2))[1 * 2 + 0]? =
        some ((linspace 0 1 2).getD 1 0, (linspace 0 1 2).getD 0 0)) :=
  ⟨by norm_num,
   c6_grid_roundtrip (0, 0, 1, 1) 2 2 [0, 1, 2, 3] 1 0 (by norm_num) (by norm_num)
     (by norm_num) (by norm_num) (by norm_num)⟩

/-- C10 counterexample: `make_image` is defined at size `(0, 2)` with an
empty coverage vector (the divisor `nx - 1` is `-1`, not zero, and reshaping
an empty array to shape `(0, 2)` succeeds), refuting the claim that it is
only defined when both dimensions are at least 2. -/
theorem c10_counterexample :
    make_image [] [] (0, 0, 1, 1) (0, 2) =
      Except.ok ([1 / 2], [-(1 / 2), 1 / 2, 3 / 2], [[], []]) := by
  norm_num [make_image, linspace, List.range_succ]

/-- C10 (amended): `make_image` divides by `nx - 1` and `ny - 1`, so for a
size with `nx = 1` or `ny = 1` (e.g. the single-pixel grid) it fails with a
division-by-zero error; when `nx ≥ 2` and `ny ≥ 2` (and the coverage length
matches the grid) the division-by-zero branch is unreachable and it returns
edge arrays of lengths `nx + 1` and `ny + 1`.  (Sizes with `nx = 0` or
`ny = 0` are also defined, so `nx, ny ≥ 2` is not necessary.) -/
theorem c10_make_image_definedness (ext : ℚ × ℚ × ℚ × ℚ) (px : List Point)
    (cov : List ℤ) (nx ny : ℕ) :
    ((nx = 1 ∨ ny = 1) → make_image px cov ext (nx, ny) = Except.error "ZeroDivisionError") ∧
    (2 ≤ nx → 2 ≤ ny → cov.length = nx * ny →
      ∃ xe ye img, make_image px cov ext (nx, ny) = Except.ok (xe, ye, img) ∧
        xe.length = nx + 1 ∧ ye.length = ny + 1) := by
  constructor
  · intro h
    unfold make_image
    have hz : (nx : ℤ) - 1 = 0 ∨ (ny : ℤ) - 1 = 0 := by omega
    rw [if_pos hz]
  · intro hnx hny hlen
    refine ⟨_, _, _, make_image_ok px cov ext nx ny hnx hny hlen, ?_, ?_⟩
    · rw [linspace_length]
    · rw [linspace_length]

/-- C10 witness: the error case evaluated at size `(1, 2)` and the success
case with its edge-array lengths at size `(2, 2)`. -/
theorem c10_make_image_definedness_witness :
    ((1 = 1 ∨ 2 = 1) ∧
      make_image [] [0, 0] (0, 0, 1, 1) (1, 2) = Except.error "ZeroDivisionError") ∧
    (2 ≤ 2 ∧ ([0, 1, 2, 3] : List ℤ).length = 2 * 2 ∧
      ∃ xe ye img, make_image [] [0, 1, 2, 3] (0, 0, 1, 1) (2, 2) = Except.ok (xe, ye, img) ∧
        xe.length = 2 + 1 ∧ ye.length = 2 + 1) :=
  ⟨⟨Or.inl rfl, (c10_make_image_definedness (0, 0, 1, 1) [] [0, 0] 1 2).1 (Or.inl rfl)⟩,
   ⟨le_refl 2, by norm_num,
    (c10_make_image_definedness (0, 0, 1, 1) [] [0, 1, 2, 3] 2 2).2 (le_refl 2) (le_refl 2)
      (by norm_num)⟩⟩

end SkyCov

namespace Geom

noncomputable section

/-- `np.radians`: degrees to radians. -/
def radians (d : ℝ) : ℝ := d * (Real.pi / 180)

/-- `np.degrees`: radians to degrees. -/
def degrees (r : ℝ) : ℝ := r * (180 / Real.pi)

/-- `np.arctan2 y x`: the angle in `(-π, π]` of the ray through `(x, y)`,
with `arctan2 0 0 = 0`; this is exactly the complex argument of `x + y·i`. -/
def atan2 (y x : ℝ) : ℝ := Complex.arg (Complex.ofReal x + Complex.ofReal y * Complex.I)

/-- An angular position `(lon, lat)` in degrees. -/
abbrev Ang := ℝ × ℝ

/-- A Cartesian 3-vector `(x, y, z)`. -/
abbrev Vec3 := ℝ × ℝ × ℝ

/-- A 3×3 matrix, as a triple of rows. -/
abbrev Mat3 := Vec3 × Vec3 × Vec3

/-- One row of `to_vec` from `src/geom.py`: colatitude `θ = π/2 − lat`,
azimuth `φ = lon`, then `(sin θ cos φ, sin θ sin φ, cos θ)`. -/
def to_vec1 (a : Ang) : Vec3 :=
  let theta := Real.pi / 2 - radians a.2
  let phi := radians a.1
  (Real.sin theta * Real.cos phi, Real.sin theta * Real.sin phi, Real.cos theta)

/-- `to_vec(ang)` from `src/geom.py`, row by row. -/
def to_vec (ang : List Ang) : List Vec3 := ang.map to_vec1

/-- One row of `to_ang` from `src/geom.py`:
`lon = degrees(arctan2(y, x))`, `r = sqrt(x²+y²+z²)`,
`lat = 90 − degrees(arccos(z / r))`. -/
def to_ang1 (v : Vec3) : Ang :=
  let r := Real.sqrt (v.1 ^ 2 + v.2.1 ^ 2 + v.2.2 ^ 2)
  (degrees (atan2 v.2.1 v.1), 90 - degrees (Real.arccos (v.2.2 / r)))

/-- `to_ang(vec)` from `src/geom.py`, row by row. -/
def to_ang (vec : List Vec3) : List Ang := vec.map to_ang1

/-- Dot product of 3-vectors. -/
def dot3 (a b : Vec3) : ℝ := a.1 * b.1 + a.2.1 * b.2.1 + a.2.2 * b.2.2

/-- Matrix–vector product (rows dotted with the vector). -/
def mulVec3 (m : Mat3) (v : Vec3) : Vec3 := (dot3 m.1 v, dot3 m.2.1 v, dot3 m.2.2 v)

/-- Matrix transpose. -/
def transpose3 (m : Mat3) : Mat3 :=
  ((m.1.1, m.2.1.1, m.2.2.1), (m.1.2.1, m.2.1.2.1, m.2.2.2.1), (m.1.2.2, m.2.1.2.2, m.2.2.2.2))

/-- Matrix product: row `i` of `a * b` is `(transpose b)`'s rows dotted with
row `i` of `a`. -/
def matmul3 (a b : Mat3) : Mat3 :=
  (mulVec3 (transpose3 b) a.1, mulVec3 (transpose3 b) a.2.1, mulVec3 (transpose3 b) a.2.2)

/-- The identity matrix. -/
def idMat3 : Mat3 := ((1, 0, 0), (0, 1, 0), (0, 0, 1))

/-- Determinant by cofactor expansion along the first row. -/
def det3 (m : Mat3) : ℝ :=
  m.1.1 * (m.2.1.2.1 * m.2.2.2.2 - m.2.1.2.2 * m.2.2.2.1)
    - m.1.2.1 * (m.2.1.1 * m.2.2.2.2 - m.2.1.2.2 * m.2.2.1)
    + m.1.2.2 * (m.2.1.1 * m.2.2.2.1 - m.2.1.2.1 * m.2.2.1)

/-- The `r_y` factor of `rot_mat` from `src/geom.py` (rows as in the source). -/
def r_y (lat : ℝ) : Mat3 :=
  let c := Real.cos (radians lat)
  let s := Real.sin (radians lat)
  ((c, 0, -s), (0, 1, 0), (s, 0, c))

/-- The `r_z` factor of `rot_mat` from `src/geom.py` (rows as in the source). -/
def r_z (lon : ℝ) : Mat3 :=
  let c := Real.cos (radians lon)
  let s := Real.sin (radians lon)
  ((c, -s, 0), (s, c, 0), (0, 0, 1))

/-- `rot_mat(lon, lat) = np.matmul(r_z, r_y)` from `src/geom.py`. -/
def rot_mat (lon lat : ℝ) : Mat3 := matmul3 (r_z lon) (r_y lat)

/-- `rotate_to(lon, lat, ang)` from `src/geom.py`:
`to_ang(np.matmul(to_vec(ang), r.T))`.  Row `i` of `to_vec(ang) @ r.T` is
`r` applied to vector `i`, so the product is modelled row-wise by `mulVec3`. -/
def rotate_to (lon lat : ℝ) (ang : List Ang) : List Ang :=
  to_ang ((to_vec ang).map (fun v => mulVec3 (rot_mat lon lat) v))

end

end Geom

namespace Geom

lemma radians_zero : radians 0 = 0 := by simp [radians]

lemma radians_90 : radians 90 = Real.pi / 2 := by unfold radians; ring

lemma radians_neg90 : radians (-90) = -(Real.pi / 2) := by unfold radians; ring

lemma degrees_zero : degrees 0 = 0 := by simp [degrees]

lemma degrees_pi : degrees Real.pi = 180 := by
  unfold degrees
  field_simp

lemma degrees_radians (d : ℝ) : degrees (radians d) = d := by
  unfold degrees radians
  field_simp

lemma rot_mat_zero_zero : rot_mat 0 0 = idMat3 := by
  simp [rot_mat, matmul3, transpose3, mulVec3, dot3, r_z, r_y, idMat3, radians]

lemma mulVec3_id (v : Vec3) : mulVec3 idMat3 v = v := by
  simp [mulVec3, dot3, idMat3]

lemma atan2_zero_zero : atan2 0 0 = 0 := by
  simp [atan2]

lemma to_vec1_north (lon : ℝ) : to_vec1 (lon, 90) = (0, 0, 1) := by
  simp [to_vec1, radians_90]

lemma to_vec1_south (lon : ℝ) : to_vec1 (lon, -90) = (0, 0, -1) := by
  simp [to_vec1, radians_neg90, Real.sin_pi, Real.cos_pi]

lemma to_ang1_north : to_ang1 (0, 0, 1) = (0, 90) := by
  simp [to_ang1, atan2_zero_zero, degrees_zero]

lemma to_ang1_south : to_ang1 (0, 0, -1) = (0, -90) := by
  simp [to_ang1, atan2_zero_zero, degrees_zero]
  norm_num [Real.sqrt_one, Real.arccos_neg_one, degrees_pi]

/-- Round-tripping a pole through `to_vec` then `to_ang` yields longitude 0
(`arctan2(0,0) = 0`) and the input latitude. -/
lemma pole_roundtrip (lon lat : ℝ) (h : lat = 90 ∨ lat = -90) :
    to_ang (to_vec [(lon, lat)]) = [(0, lat)] := by
  rcases h with h | h <;> subst h
  · simp [to_vec, to_ang, to_vec1_north, to_ang1_north]
  · simp [to_vec, to_ang, to_vec1_south, to_ang1_south]

end Geom

namespace Geom

/-- Round-tripping `to_vec1` then `to_ang1` is the identity away from the
poles, for longitudes in the principal range `(-180, 180]` of `arctan2`. -/
lemma roundtrip_interior (lon lat : ℝ) (h1 : -90 < lat) (h2 : lat < 90)
    (h3 : -180 < lon) (h4 : lon ≤ 180) :
    to_ang1 (to_vec1 (lon, lat)) = (lon, lat) := by
  have hpi := Real.pi_pos
  have hlr1 : -(Real.pi / 2) < radians lat := by unfold radians; nlinarith
  have hlr2 : radians lat < Real.pi / 2 := by unfold radians; nlinarith
  have hf1 : -Real.pi < radians lon := by unfold radians; nlinarith
  have hf2 : radians lon ≤ Real.pi := by unfold radians; nlinarith
  have hc : 0 < Real.cos (radians lat) := Real.cos_pos_of_mem_Ioo ⟨hlr1, hlr2⟩
  have hsin : Real.sin (Real.pi / 2 - radians lat) = Real.cos (radians lat) :=
    Real.sin_pi_div_two_sub _
  have hcos : Real.cos (Real.pi / 2 - radians lat) = Real.sin (radians lat) :=
    Real.cos_pi_div_two_sub _
  simp only [to_vec1, to_ang1, hsin, hcos]
  have hsum : (Real.cos (radians lat) * Real.cos (radians lon)) ^ 2
      + (Real.cos (radians lat) * Real.sin (radians lon)) ^ 2
      + Real.sin (radians lat) ^ 2 = 1 := by
    have a1 := Real.sin_sq_add_cos_sq (radians lon)
    have a2 := Real.sin_sq_add_cos_sq (radians lat)
    linear_combination Real.cos (radians lat) ^ 2 * a1 + a2
  rw [hsum, Real.sqrt_one, div_one]
  have harg : atan2 (Real.cos (radians lat) * Real.sin (radians lon))
      (Real.cos (radians lat) * Real.cos (radians lon)) = radians lon := by
    unfold atan2
    have hz : Complex.ofReal (Real.cos (radians lat) * Real.cos (radians lon))
        + Complex.ofReal (Real.cos (radians lat) * Real.sin (radians lon)) * Complex.I
        = (Real.cos (radians lat) : ℂ)
          * (Complex.cos (Complex.ofReal (radians lon))
             + Complex.sin (Complex.ofReal (radians lon)) * Complex.I) := by
      rw [← Complex.ofReal_cos, ← Complex.ofReal_sin]
      push_cast
      ring
    rw [hz, Complex.arg_real_mul _ hc, Complex.arg_cos_add_sin_mul_I ⟨hf1, hf2⟩]
  rw [harg, degrees_radians]
  have harc : Real.arccos (Real.sin (radians lat)) = Real.pi / 2 - radians lat := by
    rw [← hcos]
    exact Real.arccos_cos (by linarith) (by linarith)
  rw [harc]
  have hdeg : 90 - degrees (Real.pi / 2 - radians lat) = lat := by
    unfold degrees radians
    field_simp
    ring
  rw [hdeg]

end Geom

namespace Geom

/-- `rot_mat(lon, lat)` maps the unit vector `(1, 0, 0)` (the direction of
the sky origin `lon = lat = 0`, where the footprint template lives) to the
unit vector of the point `(lon, lat)`. -/
lemma rot_mat_e1 (lon lat : ℝ) :
    mulVec3 (rot_mat lon lat) (1, 0, 0) = to_vec1 (lon, lat) := by
  simp only [rot_mat, matmul3, transpose3, mulVec3, dot3, r_z, r_y, to_vec1,
    Real.sin_pi_div_two_sub, Real.cos_pi_div_two_sub, Prod.mk.injEq]
  refine ⟨by ring, by ring, by ring⟩

/-- `rot_mat(lon, lat)` is orthogonal: `R Rᵀ = I`. -/
lemma rot_mat_orthogonal (lon lat : ℝ) :
    matmul3 (rot_mat lon lat) (transpose3 (rot_mat lon lat)) = idMat3 := by
  have a1 := Real.sin_sq_add_cos_sq (radians lon)
  have a2 := Real.sin_sq_add_cos_sq (radians lat)
  simp only [rot_mat, matmul3, transpose3, mulVec3, dot3, r_z, r_y, idMat3, Prod.mk.injEq]
  refine ⟨⟨?_, ?_, ?_⟩, ⟨?_, ?_, ?_⟩, ?_, ?_, ?_⟩
  · linear_combination Real.cos (radians lon) ^ 2 * a2 + a1
  · linear_combination Real.sin (radians lon) * Real.cos (radians lon) * a2
  · ring
  · linear_combination Real.sin (radians lon) * Real.cos (radians lon) * a2
  · linear_combination Real.sin (radians lon) ^ 2 * a2 + a1
  · ring
  · ring
  · ring
  · linear_combination a2

/-- `rot_mat(lon, lat)` has determinant 1. -/
lemma rot_mat_det (lon lat : ℝ) : det3 (rot_mat lon lat) = 1 := by
  have a1 := Real.sin_sq_add_cos_sq (radians lon)
  have a2 := Real.sin_sq_add_cos_sq (radians lat)
  simp only [rot_mat, matmul3, transpose3, mulVec3, dot3, r_z, r_y, det3]
  linear_combination (Real.cos (radians lat) ^ 2 + Real.sin (radians lat) ^ 2) * a1 + a2

end Geom

namespace Geom

/-- C2 counterexample: round-tripping the north-pole direction with input
longitude 90 returns longitude 0, not 90: the pole convention does NOT
preserve the input longitude (`arctan2(0, 0) = 0`). -/
theorem c2_counterexample : to_ang (to_vec [((90 : ℝ), 90)]) ≠ [(90, 90)] := by
  rw [pole_roundtrip 90 90 (Or.inl rfl)]
  intro h
  simp at h

/-- C2 (amended): for every longitude, converting the pole direction
`(lon, ±90)` with `to_vec` and back with `to_ang` returns longitude 0
(the `arctan2(0,0) = 0` convention) and the input latitude; the input
longitude is not preserved. -/
theorem c2_pole_roundtrip (lon lat : ℝ) (h : lat = 90 ∨ lat = -90) :
    to_ang (to_vec [(lon, lat)]) = [(0, lat)] :=
  pole_roundtrip lon lat h

/-- C2 witness: the pole round-trip evaluated at `(lon, lat) = (90, 90)`. -/
theorem c2_pole_roundtrip_witness :
    ((90 : ℝ) = 90 ∨ (90 : ℝ) = -90) ∧ to_ang (to_vec [((90 : ℝ), 90)]) = [(0, 90)] :=
  ⟨Or.inl rfl, c2_pole_roundtrip 90 90 (Or.inl rfl)⟩

/-- C3 counterexample: at `(lon, lat) = (0, 0)` the matrix `rot_mat(0, 0)`
is the identity, so it maps `(0, 0, 1)` to `(0, 0, 1)`, while
`to_vec([[0, 0]]) = [(1, 0, 0)]`: `rot_mat` does not map the pole-aligned
direction `(0, 0, 1)` to the target direction. -/
theorem c3_counterexample :
    to_vec [((0 : ℝ), 0)] ≠ [mulVec3 (rot_mat 0 0) (0, 0, 1)] := by
  rw [rot_mat_zero_zero, mulVec3_id]
  have hv : to_vec [((0 : ℝ), 0)] = [(1, 0, 0)] := by
    simp [to_vec, to_vec1, radians_zero]
  rw [hv]
  intro h
  simp at h

/-- C3 (amended): `rot_mat(lon, lat)` is a rotation matrix (orthogonal with
determinant +1) that maps the frame's reference direction — the unit vector
`(1, 0, 0)` of the origin `(lon, lat) = (0, 0)`, not the pole `(0, 0, 1)` —
to the unit vector `to_vec([[lon, lat]])` of the point `(lon, lat)`. -/
theorem c3_rot_mat_rotation (lon lat : ℝ) :
    matmul3 (rot_mat lon lat) (transpose3 (rot_mat lon lat)) = idMat3 ∧
    det3 (rot_mat lon lat) = 1 ∧
    to_vec [(lon, lat)] = [mulVec3 (rot_mat lon lat) (1, 0, 0)] :=
  ⟨rot_mat_orthogonal lon lat, rot_mat_det lon lat, by
    rw [rot_mat_e1 lon lat]
    simp [to_vec]⟩

/-- C7 counterexample: the polygon `[(90, 90)]` has its vertex at the north
pole (latitude in `[-90, 90]`), yet `rotate_to(0, 0, ·)` sends it to
`[(0, 90)]`: rotating to the origin is not the identity on all polygons
with latitudes in `[-90, 90]`. -/
theorem c7_counterexample : rotate_to 0 0 [((90 : ℝ), 90)] ≠ [(90, 90)] := by
  unfold rotate_to
  rw [rot_mat_zero_zero]
  have hv : (to_vec [((90 : ℝ), 90)]).map (fun v => mulVec3 idMat3 v) = [(0, 0, 1)] := by
    simp [to_vec, to_vec1_north, mulVec3_id]
  rw [hv]
  have ha : to_ang [((0 : ℝ), 0, 1)] = [(0, 90)] := by
    simp [to_ang, to_ang1_north]
  rw [ha]
  intro h
  simp at h

/-- C7 (amended): `rotate_to(0, 0, X) = X` for every polygon whose vertices
have latitude strictly inside `(-90, 90)` and longitude in the principal
range `(-180, 180]`; at the poles (and for longitudes outside the principal
range) the angular round-trip inside `rotate_to` renormalizes coordinates,
so the identity fails there. -/
theorem c7_rotate_to_origin_identity (ang : List Ang)
    (h : ∀ p ∈ ang, -90 < p.2 ∧ p.2 < 90 ∧ -180 < p.1 ∧ p.1 ≤ 180) :
    rotate_to 0 0 ang = ang := by
  unfold rotate_to to_vec to_ang
  rw [rot_mat_zero_zero, List.map_map, List.map_map]
  conv_rhs => rw [← List.map_id ang]
  refine List.map_congr_left ?_
  intro p hp
  obtain ⟨b1, b2, b3, b4⟩ := h p hp
  show to_ang1 (mulVec3 idMat3 (to_vec1 p)) = p
  rw [mulVec3_id]
  exact roundtrip_interior p.1 p.2 b1 b2 b3 b4

/-- C7 witness: the identity evaluated on the unit-square footprint
template. -/
theorem c7_rotate_to_origin_identity_witness :
    (∀ p ∈ ([(-1, -1), (1, -1), (1, 1), (-1, 1), (-1, -1)] : List Ang),
      -90 < p.2 ∧ p.2 < 90 ∧ -180 < p.1 ∧ p.1 ≤ 180) ∧
    rotate_to 0 0 [(-1, -1), (1, -1), (1, 1), (-1, 1), (-1, -1)]
      = [(-1, -1), (1, -1), (1, 1), (-1, 1), (-1, -1)] :=
  ⟨by norm_num,
   c7_rotate_to_origin_identity [(-1, -1), (1, -1), (1, 1), (-1, 1), (-1, -1)] (by norm_num)⟩

end Geom
